import Mathlib

/-!
Verification of the go-cache repository: a key-value caching facade over an
in-process TTL store (`MemoryStore`) and a `Cache` facade with JSON and
get-or-populate conveniences.  The Go source is shallowly embedded below:
`time.Now().UnixNano()` instants become an explicit `now : Int` parameter,
`time.Duration` TTLs become `Int` nanosecond counts, the `interface{}`
payload becomes the closed variant `GoVal`, Go's `map[string]*item` becomes
an association list, and each method returns its result together with the
store state after the call.
-/

namespace GoCache

/-- Errors observable through the cache API: the `ErrNotFound` sentinel,
a JSON syntax error from `encoding/json`, the facade's
"cannot unmarshal value" error, and an unspecified backend error
(only external backends produce the latter). -/
inductive GoErr where
  | notFound : GoErr
  | jsonSyntax : GoErr
  | cannotUnmarshal : GoErr
  | other : GoErr
  deriving DecidableEq

/-- A JSON document.  Models the values handled by Go's `encoding/json`
(external standard library); numbers are restricted to integers, which
covers every use in this repository. -/
inductive JVal where
  | jNull : JVal
  | jBool : Bool → JVal
  | jNum : Int → JVal
  | jStr : String → JVal
  | jArr : List JVal → JVal
  | jObj : List (String × JVal) → JVal

/-- Whitespace characters skipped by the JSON scanner. -/
def isJsonWs (c : Char) : Bool :=
  c == ' ' || c == Char.ofNat 9 || c == Char.ofNat 10 || c == Char.ofNat 13

/-- Drop leading JSON whitespace. -/
def skipWs : List Char → List Char
  | [] => []
  | c :: cs => if isJsonWs c then skipWs cs else c :: cs

/-- Split a leading run of decimal digits from the input. -/
def takeDigits : List Char → List Char × List Char
  | [] => ([], [])
  | c :: cs =>
    if c.isDigit then
      let p := takeDigits cs
      (c :: p.1, p.2)
    else ([], c :: cs)

/-- Value of a digit run. -/
def digitsToNat (ds : List Char) : Nat :=
  ds.foldl (fun n c => 10 * n + (c.toNat - 48)) 0

/-- Decode one JSON string escape (the character after a backslash). -/
def unescapeChar (c : Char) : Option Char :=
  if c = Char.ofNat 34 then some (Char.ofNat 34)
  else if c = Char.ofNat 92 then some (Char.ofNat 92)
  else if c = '/' then some '/'
  else if c = 'n' then some (Char.ofNat 10)
  else if c = 't' then some (Char.ofNat 9)
  else if c = 'r' then some (Char.ofNat 13)
  else if c = 'b' then some (Char.ofNat 8)
  else if c = 'f' then some (Char.ofNat 12)
  else none

/-- Parse the body of a JSON string, the opening quote already consumed;
returns the decoded string and the input after the closing quote.
(`\u` escapes are not modelled; no input in this development uses them.) -/
def parseStringRest : List Char → Option (String × List Char)
  | [] => none
  | c :: cs =>
    if c = Char.ofNat 34 then some ("", cs)
    else if c = Char.ofNat 92 then
      match cs with
      | [] => none
      | e :: cs2 =>
        match unescapeChar e with
        | none => none
        | some c2 =>
          match parseStringRest cs2 with
          | none => none
          | some (s, rest) => some (String.singleton c2 ++ s, rest)
    else
      match parseStringRest cs with
      | none => none
      | some (s, rest) => some (String.singleton c ++ s, rest)

mutual

/-- Fuel-indexed recursive-descent parser for one JSON value. -/
def parseVal : Nat → List Char → Option (JVal × List Char)
  | 0, _ => none
  | fuel + 1, cs =>
    match skipWs cs with
    | [] => none
    | c :: rest =>
      if c = 'n' then
        match rest with
        | 'u' :: 'l' :: 'l' :: rest2 => some (.jNull, rest2)
        | _ => none
      else if c = 't' then
        match rest with
        | 'r' :: 'u' :: 'e' :: rest2 => some (.jBool true, rest2)
        | _ => none
      else if c = 'f' then
        match rest with
        | 'a' :: 'l' :: 's' :: 'e' :: rest2 => some (.jBool false, rest2)
        | _ => none
      else if c = Char.ofNat 34 then
        match parseStringRest rest with
        | some (s, rest2) => some (.jStr s, rest2)
        | none => none
      else if c = '-' then
        match takeDigits rest with
        | ([], _) => none
        | (ds, rest2) => some (.jNum (-(digitsToNat ds : Int)), rest2)
      else if c.isDigit then
        match takeDigits (c :: rest) with
        | (ds, rest2) => some (.jNum (digitsToNat ds : Int), rest2)
      else if c = '[' then
        match skipWs rest with
        | ']' :: rest2 => some (.jArr [], rest2)
        | rest2 =>
          match parseElems fuel rest2 with
          | some (xs, rest3) => some (.jArr xs, rest3)
          | none => none
      else if c = Char.ofNat 123 then
        match skipWs rest with
        | c2 :: rest2 =>
          if c2 = Char.ofNat 125 then some (.jObj [], rest2)
          else
            match parseFields fuel (c2 :: rest2) with
            | some (fs, rest3) => some (.jObj fs, rest3)
            | none => none
        | [] => none
      else none

/-- Parse the comma-separated elements of a non-empty JSON array, up to and
including the closing bracket. -/
def parseElems : Nat → List Char → Option (List JVal × List Char)
  | 0, _ => none
  | fuel + 1, cs =>
    match parseVal fuel cs with
    | none => none
    | some (x, rest) =>
      match skipWs rest with
      | ',' :: rest2 =>
        match parseElems fuel rest2 with
        | some (xs, rest3) => some (x :: xs, rest3)
        | none => none
      | ']' :: rest2 => some ([x], rest2)
      | _ => none

/-- Parse the members of a non-empty JSON object, up to and including the
closing brace. -/
def parseFields : Nat → List Char → Option (List (String × JVal) × List Char)
  | 0, _ => none
  | fuel + 1, cs =>
    match skipWs cs with
    | [] => none
    | c :: rest =>
      if c = Char.ofNat 34 then
        match parseStringRest rest with
        | none => none
        | some (k, rest2) =>
          match skipWs rest2 with
          | ':' :: rest3 =>
            match parseVal fuel rest3 with
            | none => none
            | some (v, rest4) =>
              match skipWs rest4 with
              | c2 :: rest5 =>
                if c2 = ',' then
                  match parseFields fuel rest5 with
                  | some (fs, rest6) => some ((k, v) :: fs, rest6)
                  | none => none
                else if c2 = Char.ofNat 125 then some ([(k, v)], rest5)
                else none
              | [] => none
          | _ => none
      else none

end

/-- Escape one character for a JSON string literal. -/
def encodeStringChar (c : Char) : String :=
  if c = Char.ofNat 34 then String.mk [Char.ofNat 92, Char.ofNat 34]
  else if c = Char.ofNat 92 then String.mk [Char.ofNat 92, Char.ofNat 92]
  else String.singleton c

/-- Encode a JSON string literal, quotes included. -/
def jsonEncodeString (s : String) : String :=
  "\"" ++ String.join (s.data.map encodeStringChar) ++ "\""

mutual

/-- Canonical JSON text of a document (models `json.Marshal`). -/
def jsonEncode : JVal → String
  | .jNull => "null"
  | .jBool true => "true"
  | .jBool false => "false"
  | .jNum n => toString n
  | .jStr s => jsonEncodeString s
  | .jArr xs => "[" ++ jsonEncodeElems xs ++ "]"
  | .jObj fs => "\x7b" ++ jsonEncodeFields fs ++ "\x7d"

/-- Comma-separated encodings of array elements. -/
def jsonEncodeElems : List JVal → String
  | [] => ""
  | [x] => jsonEncode x
  | x :: y :: xs => jsonEncode x ++ "," ++ jsonEncodeElems (y :: xs)

/-- Comma-separated encodings of object members. -/
def jsonEncodeFields : List (String × JVal) → String
  | [] => ""
  | [kv] => jsonEncodeString kv.1 ++ ":" ++ jsonEncode kv.2
  | kv :: f :: fs => jsonEncodeString kv.1 ++ ":" ++ jsonEncode kv.2 ++ "," ++ jsonEncodeFields (f :: fs)

end

/-- The base64 alphabet used by Go when marshalling `[]byte`. -/
def base64Alphabet : List Char :=
  "ABCDEFGHIJKLMNOPQRSTUVWXYZabcdefghijklmnopqrstuvwxyz0123456789+/".data

/-- Base64 digit for a 6-bit group. -/
def base64Char (n : Nat) : Char := base64Alphabet.getD n (Char.ofNat 65)

/-- RFC 4648 base64 encoding of a byte sequence (models how `json.Marshal`
renders a `[]byte` value as a string). -/
def base64Encode : List Nat → String
  | [] => ""
  | [b1] => String.mk [base64Char (b1 / 4), base64Char (b1 % 4 * 16)] ++ "=="
  | [b1, b2] =>
    String.mk [base64Char (b1 / 4), base64Char (b1 % 4 * 16 + b2 / 16),
      base64Char (b2 % 16 * 4)] ++ "="
  | b1 :: b2 :: b3 :: rest =>
    String.mk [base64Char (b1 / 4), base64Char (b1 % 4 * 16 + b2 / 16),
      base64Char (b2 % 16 * 4 + b3 / 64), base64Char (b3 % 64)] ++ base64Encode rest

/-- `json.Unmarshal` on a byte payload, decoded into the target as a JSON
document: parse the full input (trailing whitespace allowed), reporting a
syntax error otherwise. -/
def jsonUnmarshal (data : String) : Except GoErr JVal :=
  match parseVal (2 * data.length + 8) data.data with
  | some (j, rest) => if (skipWs rest).isEmpty then .ok j else .error .jsonSyntax
  | none => .error .jsonSyntax

/-- A Go `interface{}` payload stored in the cache, as a closed variant:
`vNil` is the nil interface, `vInt64` a value of dynamic type `int64`,
`vString` a `string`, `vBytes` a `[]byte`, and `vJSONLike j` any other
serialisable typed value (struct, map, slice, non-int64 number),
represented by its JSON image `j`. -/
inductive GoVal where
  | vNil : GoVal
  | vInt64 : Int → GoVal
  | vString : String → GoVal
  | vBytes : List Nat → GoVal
  | vJSONLike : JVal → GoVal

/-- JSON document of a Go value (total on this closed variant: every
constructor is serialisable). -/
def goValToJVal : GoVal → JVal
  | .vNil => .jNull
  | .vInt64 n => .jNum n
  | .vString s => .jStr s
  | .vBytes bs => .jStr (base64Encode bs)
  | .vJSONLike j => j

/-- `json.Marshal` on a Go value.  Fallible in Go (channels, functions);
total here because `GoVal` only has serialisable constructors. -/
def jsonMarshal (v : GoVal) : Except GoErr String :=
  .ok (jsonEncode (goValToJVal v))

/-- Two's-complement wrap-around of Go `int64` arithmetic. -/
def wrap64 (x : Int) : Int := (x + 2 ^ 63) % 2 ^ 64 - 2 ^ 63

/-- `item` (source part_000 line 222): a cached value together with its
absolute expiration instant in Unix nanoseconds, 0 meaning "never expires". -/
structure item where
  value : GoVal
  expiration : Int

/-- `item.isExpired` (line 228): false for the never-expires sentinel,
otherwise true when the current instant is strictly past the expiration. -/
def item.isExpired (i : item) (now : Int) : Bool :=
  if i.expiration = 0 then false else decide (now > i.expiration)

/-- Lookup in the key-to-item map (Go's `m.items[key]`). -/
def mapLookup : List (String × item) → String → Option item
  | [], _ => none
  | kv :: rest, k => if kv.1 = k then some kv.2 else mapLookup rest k

/-- Map assignment `m.items[key] = it`: replace the binding if present,
append it otherwise. -/
def mapInsert : List (String × item) → String → item → List (String × item)
  | [], k, it => [(k, it)]
  | kv :: rest, k, it =>
    if kv.1 = k then (k, it) :: rest else kv :: mapInsert rest k it

/-- Map removal `delete(m.items, key)`. -/
def mapErase : List (String × item) → String → List (String × item)
  | [], _ => []
  | kv :: rest, k => if kv.1 = k then mapErase rest k else kv :: mapErase rest k

/-- `MemoryStore` (line 236): the key-to-item map.  The mutex serialises Go
calls and is represented by the sequential state threading itself; the
cleanup interval and stop channel drive the reaper, modelled separately. -/
structure MemoryStore where
  items : List (String × item)

namespace MemoryStore

/-- `MemoryStore.Get` (line 258): absent or expired keys report
`ErrNotFound`; the map is returned as the state after the call. -/
def Get (m : MemoryStore) (now : Int) (key : String) :
    Except GoErr GoVal × MemoryStore :=
  match mapLookup m.items key with
  | none => (.error .notFound, m)
  | some it => if it.isExpired now then (.error .notFound, m) else (.ok it.value, m)

/-- `MemoryStore.Set` (line 275): expiration is `now + ttl` when `ttl > 0`,
the never-expires sentinel 0 otherwise; upserts and returns nil error. -/
def Set (m : MemoryStore) (now : Int) (key : String) (value : GoVal)
    (ttl : Int) : Option GoErr × MemoryStore :=
  let expiration : Int := if ttl > 0 then now + ttl else 0
  (none, ⟨mapInsert m.items key ⟨value, expiration⟩⟩)

/-- `MemoryStore.Delete` (line 293): removes the key, nil error always. -/
def Delete (m : MemoryStore) (key : String) : Option GoErr × MemoryStore :=
  (none, ⟨mapErase m.items key⟩)

/-- `MemoryStore.Has` (line 302): present and not expired. -/
def Has (m : MemoryStore) (now : Int) (key : String) : Bool × MemoryStore :=
  match mapLookup m.items key with
  | none => (false, m)
  | some it => (!(it.isExpired now), m)

/-- `MemoryStore.Increment` (line 315): the starting value is the stored
`int64` when the key is present, unexpired and numeric, and 0 otherwise;
the sum is stored with expiration 0 and returned, nil error always. -/
def Increment (m : MemoryStore) (now : Int) (key : String) (delta : Int) :
    Except GoErr Int × MemoryStore :=
  let current : Int :=
    match mapLookup m.items key with
    | none => 0
    | some it =>
      if it.isExpired now then 0
      else
        match it.value with
        | .vInt64 v => v
        | _ => 0
  let newValue := wrap64 (current + delta)
  (.ok newValue, ⟨mapInsert m.items key ⟨.vInt64 newValue, 0⟩⟩)

/-- `MemoryStore.Decrement` (line 338): `Increment` with the negated delta
(negation itself wrapping in `int64`). -/
def Decrement (m : MemoryStore) (now : Int) (key : String) (delta : Int) :
    Except GoErr Int × MemoryStore :=
  Increment m now key (wrap64 (-delta))

/-- `MemoryStore.Clear` (line 343): replaces the map with a fresh empty one. -/
def Clear (_m : MemoryStore) : Option GoErr × MemoryStore :=
  (none, ⟨[]⟩)

/-- One tick of the reaper `cleanupExpired` (line 358): under the exclusive
lock, delete every expired item. -/
def cleanupSweep (m : MemoryStore) (now : Int) : MemoryStore :=
  ⟨m.items.filter (fun kv => !(kv.2.isExpired now))⟩

/-- Liveness of the reaper goroutine started by `NewMemoryStore` (line 252):
it loops in a `select` on the ticker and the stop channel until it receives
on `stop`, then returns. -/
inductive ReaperStatus where
  | running : ReaperStatus
  | exited : ReaperStatus
  deriving DecidableEq

/-- `MemoryStore.Close` (line 352) performs the unbuffered send
`m.stop <- true`.  An unbuffered send completes exactly when a receiver is
ready: while the reaper is running it sits in its `select` receiving on
`stop`, so the send is delivered once and the reaper returns (line 374);
if the reaper has already exited nothing ever receives on `stop`, so the
send blocks forever, modelled as `none`. -/
def Close : ReaperStatus → Option ReaperStatus
  | .running => some .exited
  | .exited => none

end MemoryStore

end GoCache

namespace GoCache

/-- The `Store` interface (store.go): the capability record every backend
implements, over a backend state type `σ`.  The `context.Context`
parameter carries no information used by the in-process store and is
dropped; the current instant is passed explicitly.  `Close` interacts with
the backend's background task rather than its map state and is modelled
separately (`MemoryStore.Close`). -/
structure Store (σ : Type) where
  Get : σ → Int → String → Except GoErr GoVal × σ
  Set : σ → Int → String → GoVal → Int → Option GoErr × σ
  Delete : σ → String → Option GoErr × σ
  Has : σ → Int → String → Bool × σ
  Increment : σ → Int → String → Int → Except GoErr Int × σ
  Decrement : σ → Int → String → Int → Except GoErr Int × σ
  Clear : σ → Option GoErr × σ

/-- The in-process backend as a `Store` (the `Store = NewMemoryStore(...)`
arm of `New`). -/
def MemoryStore.asStore : Store MemoryStore :=
  ⟨MemoryStore.Get, MemoryStore.Set, MemoryStore.Delete, MemoryStore.Has,
   MemoryStore.Increment, MemoryStore.Decrement, MemoryStore.Clear⟩

namespace Cache

/-- `Cache.Get` (part_000 line 49): delegates to the store. -/
def Get {σ : Type} (ops : Store σ) (s : σ) (now : Int) (key : String) :
    Except GoErr GoVal × σ :=
  ops.Get s now key

/-- `Cache.SetWithTTL` (line 59): delegates to the store with the given TTL. -/
def SetWithTTL {σ : Type} (ops : Store σ) (s : σ) (now : Int) (key : String)
    (value : GoVal) (ttl : Int) : Option GoErr × σ :=
  ops.Set s now key value ttl

/-- `Cache.SetJSON` (line 126): despite its name and doc comment, performs
no JSON marshalling — it passes the caller's value directly to
`SetWithTTL` with the facade's default TTL. -/
def SetJSON {σ : Type} (ops : Store σ) (s : σ) (now : Int) (key : String)
    (value : GoVal) (defaultTTL : Int) : Option GoErr × σ :=
  SetWithTTL ops s now key value defaultTTL

/-- `Cache.GetJSON` (line 94): get, then decode by dynamic type — a string
is fed to `json.Unmarshal` as raw JSON text, likewise a byte slice; a nil
interface fails the `interface\x7b\x7d` assertion and reports the
"cannot unmarshal" error; any other value is re-marshalled and the
resulting JSON decoded into the destination. -/
def GetJSON {σ : Type} (ops : Store σ) (s : σ) (now : Int) (key : String) :
    Except GoErr JVal × σ :=
  match Get ops s now key with
  | (.error e, s1) => (.error e, s1)
  | (.ok v, s1) =>
    match v with
    | .vString str => (jsonUnmarshal str, s1)
    | .vBytes bs => (jsonUnmarshal (String.mk (bs.map Char.ofNat)), s1)
    | .vNil => (.error .cannotUnmarshal, s1)
    | v2 =>
      match jsonMarshal v2 with
      | .error e => (.error e, s1)
      | .ok data => (jsonUnmarshal data, s1)

/-- `Cache.GetOrSet` (line 136): on any `Get` error, invoke the fetcher;
a fetcher error is returned; otherwise the fetched value is stored
best-effort and returned whether or not the store succeeded.  The fetcher
is a value of `Except GoErr GoVal` (its call produces either an error or a
value); the `Bool` in the result records whether it was invoked. -/
def GetOrSet {σ : Type} (ops : Store σ) (s : σ) (now : Int) (key : String)
    (fetcher : Except GoErr GoVal) (ttl : Int) :
    Except GoErr GoVal × σ × Bool :=
  match Get ops s now key with
  | (.ok value, s1) => (.ok value, s1, false)
  | (.error _, s1) =>
    match fetcher with
    | .error e => (.error e, s1, true)
    | .ok value =>
      match SetWithTTL ops s1 now key value ttl with
      | (some _, s2) => (.ok value, s2, true)
      | (none, s2) => (.ok value, s2, true)

end Cache

end GoCache

namespace GoCache

/-- Smallest Go `int64` value. -/
def int64Min : Int := -(2 ^ 63)

/-- Largest Go `int64` value. -/
def int64Max : Int := 2 ^ 63 - 1

/-- Wrap-around is the identity on in-range values. -/
theorem wrap64_eq_self (x : Int) (h1 : int64Min ≤ x) (h2 : x ≤ int64Max) :
    wrap64 x = x := by
  unfold wrap64
  unfold int64Min at h1
  unfold int64Max at h2
  omega

/-- Looking up a key right after assigning it yields the assigned item. -/
theorem mapLookup_insert_self (l : List (String × item)) (k : String) (it : item) :
    mapLookup (mapInsert l k it) k = some it := by
  induction l with
  | nil => simp [mapInsert, mapLookup]
  | cons kv rest ih =>
    by_cases h : kv.1 = k
    · simp [mapInsert, h, mapLookup]
    · simp [mapInsert, h, mapLookup, ih]

/-- Removing a key twice is the same as removing it once. -/
theorem mapErase_idem (l : List (String × item)) (k : String) :
    mapErase (mapErase l k) k = mapErase l k := by
  induction l with
  | nil => rfl
  | cons kv rest ih =>
    by_cases h : kv.1 = k
    · simp [mapErase, h, ih]
    · simp [mapErase, h, ih]

/-- C2: for every key and value, immediately after `Set(key, value, ttl)`
with `ttl > 0` on the in-process store — that is, at any instant not past
the expiration instant computed at `Set` time — `Get(key)` returns the
value with no error and `Has(key)` returns true. -/
theorem set_then_get_has_before_expiry (m : MemoryStore) (t0 t1 ttl : Int)
    (key : String) (value : GoVal)
    (ht0 : 0 ≤ t0) (httl : 0 < ttl) (hle : t1 ≤ t0 + ttl) :
    (MemoryStore.Get (MemoryStore.Set m t0 key value ttl).2 t1 key).1
      = .ok value ∧
    (MemoryStore.Has (MemoryStore.Set m t0 key value ttl).2 t1 key).1 = true := by
  have hin : mapLookup ((MemoryStore.Set m t0 key value ttl).2).items key
      = some ⟨value, t0 + ttl⟩ := by
    simp [MemoryStore.Set, if_pos httl, mapLookup_insert_self]
  have h0 : ¬(t0 + ttl = 0) := by omega
  have h1 : ¬(t1 > t0 + ttl) := by omega
  have hexp : (item.mk value (t0 + ttl)).isExpired t1 = false := by
    simp [item.isExpired, h0, h1]
  constructor
  · simp [MemoryStore.Get, hin, hexp]
  · simp [MemoryStore.Has, hin, hexp]

/-- C1: for every key, value and `ttl > 0`, once the expiration instant
computed at `Set` time has passed, `Get(key)` returns the `ErrNotFound`
sentinel and `Has(key)` returns false, even though the item is still
physically present in the map (no reaper sweep has happened): lazy
expiration holds independently of active sweeping. -/
theorem set_then_get_has_after_expiry (m : MemoryStore) (t0 t1 ttl : Int)
    (key : String) (value : GoVal)
    (ht0 : 0 ≤ t0) (httl : 0 < ttl) (hgt : t1 > t0 + ttl) :
    (MemoryStore.Get (MemoryStore.Set m t0 key value ttl).2 t1 key).1
      = .error .notFound ∧
    (MemoryStore.Has (MemoryStore.Set m t0 key value ttl).2 t1 key).1 = false ∧
    mapLookup ((MemoryStore.Set m t0 key value ttl).2).items key
      = some ⟨value, t0 + ttl⟩ := by
  have hin : mapLookup ((MemoryStore.Set m t0 key value ttl).2).items key
      = some ⟨value, t0 + ttl⟩ := by
    simp [MemoryStore.Set, if_pos httl, mapLookup_insert_self]
  have h0 : ¬(t0 + ttl = 0) := by omega
  have hexp : (item.mk value (t0 + ttl)).isExpired t1 = true := by
    simp [item.isExpired, h0, hgt]
  refine ⟨?_, ?_, hin⟩
  · simp [MemoryStore.Get, hin, hexp]
  · simp [MemoryStore.Has, hin, hexp]

/-- Closed instance of the pre-expiry read-back property. -/
theorem set_then_get_has_before_expiry_witness :
    (MemoryStore.Get (MemoryStore.Set ⟨[]⟩ 100 "e" (.vString "v") 10).2 105 "e").1
      = .ok (.vString "v") ∧
    (MemoryStore.Has (MemoryStore.Set ⟨[]⟩ 100 "e" (.vString "v") 10).2 105 "e").1
      = true :=
  set_then_get_has_before_expiry ⟨[]⟩ 100 105 10 "e" (.vString "v")
    (by decide) (by decide) (by decide)

/-- Closed instance of the lazy-expiration property. -/
theorem set_then_get_has_after_expiry_witness :
    (MemoryStore.Get (MemoryStore.Set ⟨[]⟩ 100 "e" (.vString "v") 10).2 111 "e").1
      = .error .notFound ∧
    (MemoryStore.Has (MemoryStore.Set ⟨[]⟩ 100 "e" (.vString "v") 10).2 111 "e").1
      = false ∧
    mapLookup ((MemoryStore.Set ⟨[]⟩ 100 "e" (.vString "v") 10).2).items "e"
      = some ⟨.vString "v", 110⟩ :=
  set_then_get_has_after_expiry ⟨[]⟩ 100 111 10 "e" (.vString "v")
    (by decide) (by decide) (by decide)

end GoCache

namespace GoCache

/-- C3: `Increment(key, delta)` treats an absent key and a
present-but-expired key identically as starting value 0, storing `0 + delta`
— respectively `old + delta` for a live item holding an `int64` — always as
an item with no expiration (sentinel 0) regardless of the previous item's
expiration, and returns the stored result.  (The in-range hypotheses are
the `int64` typing of the Go values involved.) -/
theorem increment_semantics (m : MemoryStore) (now delta : Int) (key : String)
    (hlo : int64Min ≤ delta) (hhi : delta ≤ int64Max) :
    (mapLookup m.items key = none →
      MemoryStore.Increment m now key delta
        = (.ok delta, ⟨mapInsert m.items key ⟨.vInt64 delta, 0⟩⟩)) ∧
    (∀ it, mapLookup m.items key = some it → it.isExpired now = true →
      MemoryStore.Increment m now key delta
        = (.ok delta, ⟨mapInsert m.items key ⟨.vInt64 delta, 0⟩⟩)) ∧
    (∀ it v, mapLookup m.items key = some it → it.isExpired now = false →
      it.value = .vInt64 v → int64Min ≤ v + delta → v + delta ≤ int64Max →
      MemoryStore.Increment m now key delta
        = (.ok (v + delta), ⟨mapInsert m.items key ⟨.vInt64 (v + delta), 0⟩⟩)) := by
  have hw : wrap64 delta = delta := wrap64_eq_self delta hlo hhi
  refine ⟨?_, ?_, ?_⟩
  · intro h
    simp [MemoryStore.Increment, h, hw]
  · intro it h hexp
    simp [MemoryStore.Increment, h, hexp, hw]
  · intro it v h hlive hval h1 h2
    simp [MemoryStore.Increment, h, hlive, hval, wrap64_eq_self _ h1 h2]

/-- Closed instances of the three `Increment` starting-value cases: a fresh
key, an expired numeric item, and a live numeric item. -/
theorem increment_semantics_witness :
    MemoryStore.Increment ⟨[]⟩ 0 "c" 5
      = (.ok 5, ⟨mapInsert [] "c" ⟨.vInt64 5, 0⟩⟩) ∧
    MemoryStore.Increment ⟨[("c", ⟨.vInt64 9, 3⟩)]⟩ 10 "c" 5
      = (.ok 5, ⟨mapInsert [("c", ⟨.vInt64 9, 3⟩)] "c" ⟨.vInt64 5, 0⟩⟩) ∧
    MemoryStore.Increment ⟨[("c", ⟨.vInt64 9, 30⟩)]⟩ 10 "c" 5
      = (.ok 14, ⟨mapInsert [("c", ⟨.vInt64 9, 30⟩)] "c" ⟨.vInt64 14, 0⟩⟩) :=
  ⟨(increment_semantics ⟨[]⟩ 0 5 "c" (by decide) (by decide)).1 rfl,
   (increment_semantics ⟨[("c", ⟨.vInt64 9, 3⟩)]⟩ 10 5 "c" (by decide)
      (by decide)).2.1 ⟨.vInt64 9, 3⟩ rfl rfl,
   (increment_semantics ⟨[("c", ⟨.vInt64 9, 30⟩)]⟩ 10 5 "c" (by decide)
      (by decide)).2.2 ⟨.vInt64 9, 30⟩ 9 rfl rfl rfl (by decide) (by decide)⟩

/-- C7: `Increment` on a key holding a live value that is not an `int64`
(for example a string written by `Set`) treats the starting value as 0:
the old value is overwritten by an unexpiring item holding `delta`, and
`delta` is returned. -/
theorem increment_non_numeric (m : MemoryStore) (now delta : Int) (key : String)
    (hlo : int64Min ≤ delta) (hhi : delta ≤ int64Max)
    (it : item) (hlook : mapLookup m.items key = some it)
    (hlive : it.isExpired now = false)
    (hnn : ∀ v : Int, it.value ≠ .vInt64 v) :
    MemoryStore.Increment m now key delta
      = (.ok delta, ⟨mapInsert m.items key ⟨.vInt64 delta, 0⟩⟩) := by
  have hw : wrap64 delta = delta := wrap64_eq_self delta hlo hhi
  have hcur : (match it.value with | GoVal.vInt64 v => v | _ => (0 : Int)) = 0 := by
    cases hv : it.value with
    | vInt64 v => exact absurd hv (hnn v)
    | vNil => rfl
    | vString s => rfl
    | vBytes bs => rfl
    | vJSONLike j => rfl
  simp [MemoryStore.Increment, hlook, hlive, hcur, hw]

/-- Closed instance: incrementing a key that holds a live string. -/
theorem increment_non_numeric_witness :
    MemoryStore.Increment ⟨[("c", ⟨.vString "x", 0⟩)]⟩ 10 "c" 7
      = (.ok 7, ⟨mapInsert [("c", ⟨.vString "x", 0⟩)] "c" ⟨.vInt64 7, 0⟩⟩) :=
  increment_non_numeric ⟨[("c", ⟨.vString "x", 0⟩)]⟩ 10 7 "c" (by decide) (by decide)
    ⟨.vString "x", 0⟩ rfl rfl (fun v h => GoVal.noConfusion h)

/-- C8: `Get` and `Has` never modify the store state: the key-to-item map
after each call is the one before it, and in particular an expired item is
reported as absent (`ErrNotFound` / false) while remaining physically
present in the map. -/
theorem get_has_frame (m : MemoryStore) (now : Int) (key : String) :
    (MemoryStore.Get m now key).2 = m ∧
    (MemoryStore.Has m now key).2 = m ∧
    (∀ it, mapLookup m.items key = some it → it.isExpired now = true →
      (MemoryStore.Get m now key).1 = .error .notFound ∧
      (MemoryStore.Has m now key).1 = false ∧
      mapLookup (MemoryStore.Get m now key).2.items key = some it ∧
      mapLookup (MemoryStore.Has m now key).2.items key = some it) := by
  refine ⟨?_, ?_, ?_⟩
  · unfold MemoryStore.Get
    cases mapLookup m.items key with
    | none => rfl
    | some it => by_cases h : it.isExpired now <;> simp [h]
  · unfold MemoryStore.Has
    cases mapLookup m.items key with
    | none => rfl
    | some it => rfl
  · intro it hlook hexp
    refine ⟨?_, ?_, ?_, ?_⟩
    · simp [MemoryStore.Get, hlook, hexp]
    · simp [MemoryStore.Has, hlook, hexp]
    · simp [MemoryStore.Get, hlook, hexp]
    · simp [MemoryStore.Has, hlook, hexp]

/-- Closed instance of the frame property at an expired item. -/
theorem get_has_frame_witness :
    (MemoryStore.Get ⟨[("k", ⟨.vString "v", 5⟩)]⟩ 10 "k").1 = .error .notFound ∧
    (MemoryStore.Has ⟨[("k", ⟨.vString "v", 5⟩)]⟩ 10 "k").1 = false ∧
    mapLookup (MemoryStore.Get ⟨[("k", ⟨.vString "v", 5⟩)]⟩ 10 "k").2.items "k"
      = some ⟨.vString "v", 5⟩ ∧
    mapLookup (MemoryStore.Has ⟨[("k", ⟨.vString "v", 5⟩)]⟩ 10 "k").2.items "k"
      = some ⟨.vString "v", 5⟩ :=
  (get_has_frame ⟨[("k", ⟨.vString "v", 5⟩)]⟩ 10 "k").2.2 ⟨.vString "v", 5⟩ rfl rfl

/-- C9: on the in-process store, `Set`, `Delete`, `Increment`, `Decrement`
and `Clear` return a nil error for every input, and `Delete` is idempotent
(so in particular deleting an absent key succeeds with no error). -/
theorem write_ops_infallible (m : MemoryStore) (now ttl delta : Int)
    (key : String) (value : GoVal) :
    (MemoryStore.Set m now key value ttl).1 = none ∧
    (MemoryStore.Delete m key).1 = none ∧
    (MemoryStore.Increment m now key delta).1.isOk = true ∧
    (MemoryStore.Decrement m now key delta).1.isOk = true ∧
    (MemoryStore.Clear m).1 = none ∧
    MemoryStore.Delete (MemoryStore.Delete m key).2 key
      = MemoryStore.Delete m key := by
  refine ⟨rfl, rfl, rfl, rfl, rfl, ?_⟩
  simp [MemoryStore.Delete, mapErase_idem]

end GoCache

namespace GoCache

/-- C6: `GetOrSet` returns the cached value without invoking the fetcher
when `Get` hits; on a miss with a successful fetcher it returns the fetched
value with no error whatever the outcome of the subsequent store (a store
failure is swallowed — the statement assumes nothing about `ops.Set`). -/
theorem getOrSet_semantics {σ : Type} (ops : Store σ) (s : σ) (now : Int)
    (key : String) (fetcher : Except GoErr GoVal) (ttl : Int) :
    (∀ v s1, ops.Get s now key = (.ok v, s1) →
      Cache.GetOrSet ops s now key fetcher ttl = (.ok v, s1, false)) ∧
    (∀ e s1 v, ops.Get s now key = (.error e, s1) → fetcher = .ok v →
      (Cache.GetOrSet ops s now key fetcher ttl).1 = .ok v ∧
      (Cache.GetOrSet ops s now key fetcher ttl).2.2 = true) := by
  constructor
  · intro v s1 h
    simp [Cache.GetOrSet, Cache.Get, h]
  · intro e s1 v h hf
    simp only [Cache.GetOrSet, Cache.Get, h, hf]
    cases hset : Cache.SetWithTTL ops s1 now key v ttl with
    | mk r s2 => cases r <;> simp [hset]

/-- A backend whose reads always miss and whose writes always fail;
exercises the error-swallowing path of `GetOrSet`. -/
def failStore : Store Unit :=
  ⟨fun s _ _ => (.error .notFound, s),
   fun s _ _ _ _ => (some .other, s),
   fun s _ => (none, s),
   fun s _ _ => (false, s),
   fun s _ _ _ => (.error .other, s),
   fun s _ _ _ => (.error .other, s),
   fun s => (none, s)⟩

/-- Closed instances of both `GetOrSet` paths: a hit on the in-process
store (fetcher not invoked), and a miss on a backend whose store fails
(fetched value still returned with no error). -/
theorem getOrSet_semantics_witness :
    Cache.GetOrSet MemoryStore.asStore ⟨[("k", ⟨.vString "v", 0⟩)]⟩ 0 "k"
        (.ok (.vString "w")) 5
      = (.ok (.vString "v"), ⟨[("k", ⟨.vString "v", 0⟩)]⟩, false) ∧
    (Cache.GetOrSet failStore () 0 "k" (.ok (.vString "w")) 5).1
      = .ok (.vString "w") ∧
    (Cache.GetOrSet failStore () 0 "k" (.ok (.vString "w")) 5).2.2 = true := by
  refine ⟨?_, ?_, ?_⟩
  · exact (getOrSet_semantics MemoryStore.asStore ⟨[("k", ⟨.vString "v", 0⟩)]⟩ 0 "k"
      (.ok (.vString "w")) 5).1 (.vString "v") ⟨[("k", ⟨.vString "v", 0⟩)]⟩ rfl
  · exact ((getOrSet_semantics failStore () 0 "k" (.ok (.vString "w")) 5).2
      .notFound () (.vString "w") rfl rfl).1
  · exact ((getOrSet_semantics failStore () 0 "k" (.ok (.vString "w")) 5).2
      .notFound () (.vString "w") rfl rfl).2

/-- C4 fails on the code: `Cache.SetJSON` performs no serialisation — the
caller's typed value is handed unchanged to the primitive `Set`, so the
in-process store ends up holding the typed value itself (here a struct-like
document), not a byte or string encoding of it.  This contradicts the
method's own doc comment ("marshals and stores data as JSON"). -/
theorem setJSON_stores_typed_value :
    mapLookup ((Cache.SetJSON MemoryStore.asStore ⟨[]⟩ 100 "user:123"
        (.vJSONLike (.jObj [("id", .jNum 123), ("name", .jStr "John")])) 3600).2).items
      "user:123"
      = some ⟨.vJSONLike (.jObj [("id", .jNum 123), ("name", .jStr "John")]), 3700⟩ :=
  rfl

/-- C5 fails on the code for string values: `SetJSON` stores the Go string
unserialised, and `GetJSON` then feeds that raw string to `json.Unmarshal`,
which rejects it as invalid JSON — the round trip errors instead of
returning the value. -/
theorem setJSON_getJSON_string_roundtrip_fails :
    (Cache.GetJSON MemoryStore.asStore
        (Cache.SetJSON MemoryStore.asStore ⟨[]⟩ 100 "k" (.vString "hello") 3600).2
        100 "k").1
      = .error .jsonSyntax :=
  rfl

/-- C10: the first `Close` delivers the single shutdown notification and the
reaper exits; but with the reaper already exited the unbuffered send in
`Close` has no receiver and blocks forever, contradicting the requirement
that `Close` must not block indefinitely in that state. -/
theorem close_blocks_when_reaper_exited :
    MemoryStore.Close .running = some .exited ∧
    MemoryStore.Close .exited = none :=
  ⟨rfl, rfl⟩

end GoCache
